import Mathlib

/-
Verification of the tiered event-memory subsystem (core/Tiered_memory.py,
class TieredMemory) against its specification.

Modelling conventions:
* Python floats are modelled exactly: ingestion-time scores are sums of
  decimal constants and are kept in ℚ; time-decayed importance values
  involve 0.5 ** (age/3600) and are kept in ℝ (real exponentiation).
* A Python exception is modelled as Option.none.  The model does not track
  the partially mutated state Python leaves behind when an exception
  escapes mid-mutation; no claim below depends on that state.
* Python dictionaries appearing as event payloads are modelled as
  association lists from String to a Val sum type covering the value
  shapes the program stores or renders.
* Character classification (lower/upper/digit/whitespace) follows the
  ASCII behaviour of the corresponding Python predicates.
-/

namespace TieredMemory

/-- The payload values the program stores or renders (Python str, int,
bool, None and lists thereof). -/
inductive Val where
  | str (s : String)
  | int (z : Int)
  | bool (b : Bool)
  | none
  | list (l : List Val)

abbrev Payload := List (String × Val)

/-- Python dict.get(k): first binding of the key, if any. -/
def pget (p : Payload) (k : String) : Option Val :=
  match p with
  | [] => Option.none
  | (k2, v) :: rest => if k2 = k then some v else pget rest k

/-- A value used where Python requires a str; anything else raises. -/
def asStr : Val → Option String
  | .str s => some s
  | _ => Option.none

/-- Python data.get(k, d) followed by a str-only operation: a missing key
yields the default, a present non-string value raises (models as none). -/
def getStrD (p : Payload) (k : String) (d : String) : Option String :=
  match pget p k with
  | Option.none => some d
  | some v => asStr v

mutual
/-- Python repr of a payload value (sufficient for the shapes in Val). -/
def reprVal : Val → String
  | .str s => "'" ++ s ++ "'"
  | .int z => toString z
  | .bool b => if b then "True" else "False"
  | .none => "None"
  | .list l => "[" ++ reprValList l ++ "]"

def reprValList : List Val → String
  | [] => ""
  | [v] => reprVal v
  | v :: rest => reprVal v ++ ", " ++ reprValList rest
end

/-- Python str(v) as used by f-string interpolation. -/
def renderVal : Val → String
  | .str s => s
  | v => reprVal v

def reprPairs : Payload → String
  | [] => ""
  | [(k, v)] => "'" ++ k ++ "': " ++ reprVal v
  | (k, v) :: rest => "'" ++ k ++ "': " ++ reprVal v ++ ", " ++ reprPairs rest

/-- Python str(data) for a payload dict. -/
def reprPayload (p : Payload) : String :=
  "\x7b" ++ reprPairs p ++ "\x7d"

/-- Python s[:n] on a string. -/
def takeChars (n : ℕ) (s : String) : String :=
  String.mk (s.data.take n)

/-- Python s.lower() (ASCII). -/
def lowerStr (s : String) : String :=
  String.mk (s.data.map Char.toLower)

/-- Substring containment over explicit character lists
(Python `sub in s`). -/
def isSubChars (pat : List Char) : List Char → Bool
  | [] => pat.isEmpty
  | c :: rest => pat.isPrefixOf (c :: rest) || isSubChars pat rest

/-- Python `sub in s` for strings. -/
def containsSub (sub s : String) : Bool :=
  isSubChars sub.data s.data

/-- Python text.split(): split on whitespace runs, no empty words. -/
def splitWordsAux : List Char → List Char → List (List Char)
  | [], acc => if acc.isEmpty then [] else [acc.reverse]
  | c :: rest, acc =>
    if c.isWhitespace then
      if acc.isEmpty then splitWordsAux rest []
      else acc.reverse :: splitWordsAux rest []
    else splitWordsAux rest (c :: acc)

def splitWords (s : String) : List (List Char) :=
  splitWordsAux s.data []

/-- The fixed emphatic-keyword list of _score_importance. -/
def emphaticWords : List String :=
  ["remember", "important", "forever", "always", "never",
   "hate", "love", "favorite", "rule", "must"]

/-- The fixed vision-keyword list of _score_importance. -/
def visionWords : List String :=
  ["item", "change", "new", "danger", "threat"]

/-- any(word in text for word in emphatic_words). -/
def hasEmphatic (text : String) : Bool :=
  emphaticWords.any (fun w => containsSub w text)

def headUpper : List Char → Bool
  | [] => false
  | c :: _ => c.isUpper

/-- any(word[0].isupper() for word in text.split() if len(word) > 2). -/
def hasCapWord (text : String) : Bool :=
  (splitWords text).any (fun w => decide (2 < w.length) && headUpper w)

/-- any(char.isdigit() for char in text). -/
def hasDigit (text : String) : Bool :=
  text.data.any Char.isDigit

/-- any(word in summary for word in ["item", "change", ...]). -/
def hasVisionWord (s : String) : Bool :=
  visionWords.any (fun w => containsSub w s)

/-- Python min(a, b) on two floats (returns the first argument on
ties, like Python). -/
def pyMin (a b : ℚ) : ℚ :=
  if a ≤ b then a else b

/-- The type_scores dictionary lookup with default 0.4. -/
def typeScores (kind : String) : ℚ :=
  if kind = "chat" then 9/10
  else if kind = "vision" then 3/5
  else if kind = "app_activity" then 3/10
  else if kind = "location" then 1/2
  else if kind = "inventory" then 2/5
  else if kind = "skill" then 4/5
  else if kind = "preference" then 9/10
  else 2/5

/-- TieredMemory._score_importance.  The chat branch reads
data.get("text", "") and lowercases it before every content check
(including the capitalised-word check); a present non-string text value
makes Python raise, modelled as none. -/
def score_importance (kind : String) (data : Payload) : Option ℚ :=
  let base := typeScores kind
  if kind = "chat" then
    (getStrD data "text" "").map (fun raw =>
      let text := lowerStr raw
      let eBoost : ℚ := if hasEmphatic text then 1/5 else 0
      let cBoost : ℚ := if hasCapWord text then 3/20 else 0
      let dBoost : ℚ := if hasDigit text then 1/10 else 0
      let qBoost : ℚ := if text.data.contains '?' then 3/20 else 0
      pyMin (base + eBoost + cBoost + dBoost + qBoost) 1)
  else if kind = "vision" then
    (getStrD data "summary" "").map (fun raw =>
      let summary := lowerStr raw
      let vBoost : ℚ := if hasVisionWord summary then 1/5 else 0
      pyMin (base + vBoost) 1)
  else some (pyMin base 1)

/-- An event of the recent layer: {type, data, timestamp}. -/
structure Event where
  type : String
  data : Payload
  timestamp : ℚ

/-- An important-layer entry: an event plus its (decaying) importance.
Ingestion-time importance is a rational score; decay multiplies it by a
real exponential, so the stored importance lives in ℝ. -/
structure ScoredEvent where
  type : String
  data : Payload
  timestamp : ℚ
  importance : ℝ

/-- One archive-layer day bucket:
{summary, event_count, timestamp, events}. -/
structure DayBucket where
  summary : String
  event_count : ℕ
  timestamp : ℚ
  events : List ScoredEvent

/-- The archive dict, keyed by calendar day (insertion-ordered, as a
Python dict; lookups are by key, rendering sorts the keys). -/
abbrev Archive := List (Int × DayBucket)

def aget (a : Archive) (k : Int) : Option DayBucket :=
  match a with
  | [] => Option.none
  | (k2, b) :: rest => if k2 = k then some b else aget rest k

def aset (a : Archive) (k : Int) (b : DayBucket) : Archive :=
  match a with
  | [] => [(k, b)]
  | (k2, b2) :: rest => if k2 = k then (k2, b) :: rest else (k2, b2) :: aset rest k b

/-- The whole TieredMemory object state. -/
structure Store where
  recent_max : Int
  important_max : Int
  importance_threshold : ℚ
  recent : List Event
  important : List ScoredEvent
  archive : Archive
  event_counter : ℕ

/-- TieredMemory.__init__.  The constructor itself performs no
validation; the only failure is deque(maxlen=recent_max), which raises
ValueError for a negative maxlen (a maxlen of 0 is legal and keeps the
deque empty).  important_max and the threshold are stored unchecked. -/
def mk (recent_max important_max : Int) (importance_threshold : ℚ) : Option Store :=
  if recent_max < 0 then Option.none
  else some
    { recent_max := recent_max
      important_max := important_max
      importance_threshold := importance_threshold
      recent := []
      important := []
      archive := []
      event_counter := 0 }

/-- deque(maxlen=n).append: append on the right, evicting the oldest
entries on the left so that at most n remain (n is never negative for a
successfully constructed store). -/
def dequeAppend (n : Int) (l : List Event) (e : Event) : List Event :=
  let l2 := l ++ [e]
  l2.drop (l2.length - n.toNat)

/-- Python list slicing l[:m] with an integer bound (a negative bound
counts from the end). -/
def pyTake (m : Int) (l : List ScoredEvent) : List ScoredEvent :=
  if 0 ≤ m then l.take m.toNat else l.take (l.length - (-m).toNat)

/-- The descending-importance order used by
important.sort(key=..., reverse=True).  Python's sort is stable; the
relative order of equal importances is immaterial to every property
proved below. -/
def impGE (a b : ScoredEvent) : Prop :=
  b.importance ≤ a.importance

noncomputable instance : DecidableRel impGE :=
  fun a b => Real.decidableLE b.importance a.importance

/-- TieredMemory._trim_important: when over capacity, sort by importance
descending and keep the top important_max. -/
noncomputable def trim_important (m : Int) (l : List ScoredEvent) : List ScoredEvent :=
  if m < (l.length : Int) then pyTake m (List.insertionSort impGE l) else l

/-- The decayed score of _decay_and_archive:
importance * 0.5 ** (age_seconds / 3600). -/
noncomputable def decayedScore (importance : ℝ) (age : ℚ) : ℝ :=
  importance * (1/2 : ℝ) ^ ((age : ℝ) / 3600)

/-- One important-layer entry under the sweep's decay step: kept (with
its importance updated in place to the decayed score) precisely when the
decayed score stays above the 0.1 residual floor. -/
noncomputable def sweepEntry (now : ℚ) (e : ScoredEvent) : Option ScoredEvent :=
  if (1/10 : ℝ) < decayedScore e.importance (now - e.timestamp) then
    some { e with importance := decayedScore e.importance (now - e.timestamp) }
  else Option.none

/-- Modelled from the source's datetime.fromtimestamp(ts).strftime("%Y-%m-%d"):
the calendar-date key is abstracted to the whole number of days since the
epoch (the local-timezone offset is not modelled).  Two timestamps map to
the same key exactly when they fall on the same calendar day. -/
def dateKey (ts : ℚ) : Int :=
  ⌊ts / 86400⌋

/-- The day bucket _archive_event starts from: the existing one for the
event's date, or a fresh empty bucket stamped with the event's
timestamp. -/
def bucketInit (a : Archive) (e : ScoredEvent) : DayBucket :=
  match aget a (dateKey e.timestamp) with
  | some b => b
  | Option.none => { summary := "", event_count := 0, timestamp := e.timestamp, events := [] }

/-- The unconditional bucket mutations of _archive_event: store the raw
event and bump event_count. -/
def bucketBase (a : Archive) (e : ScoredEvent) : DayBucket :=
  { bucketInit a e with
    events := (bucketInit a e).events ++ [e]
    event_count := (bucketInit a e).event_count + 1 }

/-- The chat-only summary mutation of _archive_event, de-duplicated by
substring containment. -/
def chatBucketUpdate (b : DayBucket) (line : String) : DayBucket :=
  if containsSub line b.summary then b
  else { b with summary := b.summary ++ line ++ "; " }

/-- TieredMemory._archive_event: create the day bucket on first use,
append the raw event and bump event_count, and for chat events append a
"who: text[:50]; " fragment to the rolling summary unless that fragment
is already a substring of the summary.  Slicing a non-string text value
raises, modelled as none. -/
def archive_event (a : Archive) (e : ScoredEvent) : Option Archive :=
  if e.type = "chat" then
    (getStrD e.data "text" "").map (fun text =>
      aset a (dateKey e.timestamp)
        (chatBucketUpdate (bucketBase a e)
          (renderVal ((pget e.data "who").getD (Val.str "")) ++ ": " ++ takeChars 50 text)))
  else some (aset a (dateKey e.timestamp) (bucketBase a e))

/-- The loop of _decay_and_archive over the important layer: kept
entries are collected in order; an entry whose decayed score fell to the
floor is archived when older than one day and dropped otherwise. -/
noncomputable def sweepGo (now : ℚ) :
    List ScoredEvent → List ScoredEvent → Archive → Option (List ScoredEvent × Archive)
  | [], kept, a => some (kept, a)
  | e :: rest, kept, a =>
    match sweepEntry now e with
    | some e2 => sweepGo now rest (kept ++ [e2]) a
    | Option.none =>
      if (86400 : ℚ) < now - e.timestamp then
        match archive_event a e with
        | some a2 => sweepGo now rest kept a2
        | Option.none => Option.none
      else sweepGo now rest kept a

/-- TieredMemory._decay_and_archive: after the loop the important layer
is exactly the kept (decayed) entries. -/
noncomputable def decay_and_archive (now : ℚ) (st : Store) : Option Store :=
  (sweepGo now st.important [] st.archive).map (fun p =>
    { st with important := p.1, archive := p.2 })

/-- The important-layer record built at promotion time,
{**event, "importance": score}. -/
noncomputable def mkScored (kind : String) (data : Payload) (t : ℚ) (s : ℚ) : ScoredEvent :=
  { type := kind, data := data, timestamp := t, importance := (s : ℝ) }

/-- The state mutations of add before the periodic-sweep check: append
to recent, promote-and-trim when the score strictly exceeds the
threshold, and bump the event counter. -/
noncomputable def addCore (st : Store) (type_str : String) (data : Payload) (now : ℚ)
    (s : ℚ) : Store :=
  { st with
    recent := dequeAppend st.recent_max st.recent
      { type := type_str, data := data, timestamp := now }
    important :=
      if st.importance_threshold < s then
        trim_important st.important_max (st.important ++ [mkScored type_str data now s])
      else st.important
    event_counter := st.event_counter + 1 }

/-- TieredMemory.add.  The event is appended to recent unconditionally;
it is promoted (and the important layer trimmed) when its score strictly
exceeds the threshold; every 100th ingested event triggers the decay and
archive sweep synchronously.  The Python code samples time.time() once
for the event and once inside the sweep; the model passes one now for
the whole call. -/
noncomputable def add (st : Store) (type_str : String) (data : Payload) (now : ℚ) :
    Option Store :=
  match score_importance type_str data with
  | Option.none => Option.none
  | some s =>
    let st2 := addCore st type_str data now s
    if st2.event_counter % 100 = 0 then decay_and_archive now st2 else some st2

/-- TieredMemory.add_chat: add("chat", {"who": who, "text": text}). -/
noncomputable def add_chat (st : Store) (text : String) (who : String) (now : ℚ) :
    Option Store :=
  add st "chat" [("who", Val.str who), ("text", Val.str text)] now

/-- A replayed sequence of add calls. -/
noncomputable def replay : List (String × Payload × ℚ) → Store → Option Store
  | [], st => some st
  | c :: rest, st =>
    match add st c.1 c.2.1 c.2.2 with
    | some st2 => replay rest st2
    | Option.none => Option.none

/-- Python indexing v[i]: defined on lists and strings, raising
otherwise and on out-of-range indices. -/
def indexVal (v : Val) (i : ℕ) : Option Val :=
  match v with
  | .list l => l.get? i
  | .str s => (s.data.get? i).map (fun c => Val.str (String.mk [c]))
  | _ => Option.none

/-- TieredMemory._format_event (its show_score parameter is never used
by the source).  Renders one event; slicing a non-string text/summary or
indexing a malformed pos raises, modelled as none. -/
def format_event (t : String) (data : Payload) : Option String :=
  if t = "chat" then
    (getStrD data "text" "").map (fun text =>
      renderVal ((pget data "who").getD (Val.str "user")) ++ ": " ++ takeChars 80 text)
  else if t = "vision" then
    (getStrD data "summary" "").map (fun s => "[vision] " ++ takeChars 80 s)
  else if t = "app_activity" then
    some ("[using] " ++ renderVal ((pget data "app").getD (Val.str "Unknown")) ++
      " (" ++ renderVal ((pget data "category").getD (Val.str "unknown")) ++ ")")
  else if t = "location" then
    match indexVal ((pget data "pos").getD (Val.list [Val.int 0, Val.int 0, Val.int 0])) 0,
      indexVal ((pget data "pos").getD (Val.list [Val.int 0, Val.int 0, Val.int 0])) 1,
      indexVal ((pget data "pos").getD (Val.list [Val.int 0, Val.int 0, Val.int 0])) 2 with
    | some p0, some p1, some p2 =>
      some ("[at] " ++ renderVal p0 ++ ", " ++ renderVal p1 ++ ", " ++ renderVal p2)
    | _, _, _ => Option.none
  else
    some ("[" ++ t ++ "] " ++ takeChars 60 (reprPayload data))

/-- Python list[-n:]. -/
def takeLast (n : ℕ) (l : List α) : List α :=
  l.drop (l.length - n)

/-- Traverse a list with a fallible renderer, failing if any element
fails (the Python loop raises at the first bad element). -/
def optionMap (f : α → Option β) : List α → Option (List β)
  | [] => some []
  | x :: rest =>
    match f x with
    | some y => (optionMap f rest).map (fun ys => y :: ys)
    | Option.none => Option.none

/-- The descending order on archive keys used by
sorted(archive.keys(), reverse=True). -/
def dateGE (a b : Int × DayBucket) : Prop :=
  b.1 ≤ a.1

instance : DecidableRel dateGE :=
  fun a b => inferInstanceAs (Decidable (b.1 ≤ a.1))

/-- The list of lines built by get_context_summary before truncation:
an optional recent section (header plus the last 5 recent events), an
optional important section (blank line, header, top 5 by decayed
importance) and an optional archive section (blank line, header, the 3
most recent dates). -/
noncomputable def summaryLines (st : Store) : Option (List String) :=
  let rsec : Option (List String) :=
    if st.recent.isEmpty then some []
    else (optionMap (fun e => format_event e.type e.data) (takeLast 5 st.recent)).map
      (fun ls => "=== RECENT (last events) ===" :: ls)
  let isec : Option (List String) :=
    if st.important.isEmpty then some []
    else (optionMap (fun e => format_event e.type e.data)
        ((List.insertionSort impGE st.important).take 5)).map
      (fun ls => "" :: "=== IMPORTANT (remembered facts) ===" :: ls)
  let asec : List String :=
    if st.archive.isEmpty then []
    else "" :: "=== ARCHIVE (past sessions) ===" ::
      ((List.insertionSort dateGE st.archive).take 3).map
        (fun p => "[" ++ toString p.1 ++ "] " ++ toString p.2.event_count ++ " events")
  match rsec, isec with
  | some r, some i => some (r ++ i ++ asec)
  | _, _ => Option.none

/-- Python "\n".join. -/
def joinNL : List String → String
  | [] => ""
  | [l] => l
  | l :: rest => l ++ "\n" ++ joinNL rest

/-- TieredMemory.get_context_summary:
"\n".join(lines[:max_items]). -/
noncomputable def get_context_summary (st : Store) (max_items : ℕ) : Option String :=
  (summaryLines st).map (fun ls => joinNL (ls.take max_items))

/-- The number of lines of a string, with Python's str.splitlines
convention: the empty string has no lines and a trailing newline does
not open a new line. -/
def lineCount (s : String) : ℕ :=
  s.data.count '\n' + (if s.data ≠ [] ∧ s.data.getLast? ≠ some '\n' then 1 else 0)

/-- Python hay.count(pat): non-overlapping occurrences, scanned from the
left. -/
def countSubstr (pat : List Char) : List Char → ℕ
  | [] => 0
  | c :: rest =>
    if pat.isEmpty then 0
    else if pat.isPrefixOf (c :: rest) then
      1 + countSubstr pat (List.drop (pat.length - 1) rest)
    else countSubstr pat rest
termination_by l => l.length
decreasing_by
  all_goals simp [List.length_drop]
  omega

/-! ## Helper lemmas on scoring -/

/-- The chat branch of _score_importance on a well-typed chat payload. -/
lemma score_chat_str (who text : String) :
    score_importance "chat" [("who", Val.str who), ("text", Val.str text)] =
      some (pyMin ((9/10 : ℚ) +
        (if hasEmphatic (lowerStr text) then 1/5 else 0) +
        (if hasCapWord (lowerStr text) then 3/20 else 0) +
        (if hasDigit (lowerStr text) then 1/10 else 0) +
        (if (lowerStr text).data.contains '?' then 3/20 else 0)) 1) := by
  simp [score_importance, getStrD, pget, asStr, typeScores]

/-- A chat text firing none of the four content boosts scores exactly
the 0.9 chat base. -/
lemma score_chat_plain (who text : String)
    (h1 : hasEmphatic (lowerStr text) = false)
    (h2 : hasCapWord (lowerStr text) = false)
    (h3 : hasDigit (lowerStr text) = false)
    (h4 : '?' ∉ (lowerStr text).data) :
    score_importance "chat" [("who", Val.str who), ("text", Val.str text)] =
      some (9/10) := by
  simp [score_importance, getStrD, pget, asStr, h1, h2, h3, h4, typeScores, pyMin]
  norm_num

/-- Every chat score the program can produce is at least the 0.9 base. -/
lemma score_chat_ge {data : Payload} {s : ℚ}
    (h : score_importance "chat" data = some s) : 9/10 ≤ s := by
  simp [score_importance] at h
  obtain ⟨raw, -, rfl⟩ := h
  unfold pyMin
  split_ifs <;> norm_num [typeScores]

/-! ## Helper lemmas on layer sizes -/

lemma length_dequeAppend {n : Int} (hn : 0 ≤ n) (l : List Event) (e : Event) :
    ((dequeAppend n l e).length : Int) ≤ n := by
  unfold dequeAppend
  simp [List.length_drop]
  omega

lemma length_pyTake {m : Int} (hm : 0 ≤ m) (l : List ScoredEvent) :
    ((pyTake m l).length : Int) ≤ m := by
  unfold pyTake
  rw [if_pos hm]
  simp [List.length_take]
  omega

lemma length_trim {m : Int} (hm : 0 ≤ m) (l : List ScoredEvent) :
    ((trim_important m l).length : Int) ≤ m := by
  unfold trim_important
  split
  · exact length_pyTake hm _
  · omega

lemma sweepGo_length (now : ℚ) :
    ∀ (l kept : List ScoredEvent) (a : Archive) (k2 : List ScoredEvent) (a2 : Archive),
      sweepGo now l kept a = some (k2, a2) → k2.length ≤ kept.length + l.length := by
  intro l
  induction l with
  | nil =>
    intro kept a k2 a2 h
    simp [sweepGo] at h
    simp [h.1.symm]
  | cons e rest ih =>
    intro kept a k2 a2 h
    rw [sweepGo] at h
    cases hse : sweepEntry now e with
    | some e2 =>
      rw [hse] at h
      have := ih (kept ++ [e2]) a k2 a2 h
      simp at this
      simp
      omega
    | none =>
      rw [hse] at h
      simp at h
      split at h
      · cases hae : archive_event a e with
        | some a3 =>
          rw [hae] at h
          have := ih kept a3 k2 a2 h
          simp
          omega
        | none =>
          rw [hae] at h
          exact absurd h (by simp)
      · have := ih kept a k2 a2 h
        simp
        omega

lemma decay_preserves {now : ℚ} {st st2 : Store}
    (h : decay_and_archive now st = some st2) :
    st2.recent_max = st.recent_max ∧ st2.important_max = st.important_max ∧
      st2.importance_threshold = st.importance_threshold ∧ st2.recent = st.recent ∧
      st2.event_counter = st.event_counter ∧
      st2.important.length ≤ st.important.length := by
  unfold decay_and_archive at h
  cases hg : sweepGo now st.important [] st.archive with
  | some p =>
    rw [hg] at h
    simp at h
    have hl := sweepGo_length now st.important [] st.archive p.1 p.2 (by rw [hg])
    rw [h.symm]
    simpa using hl
  | none =>
    rw [hg] at h
    exact absurd h (by simp)

/-- The single-add step: configuration is preserved, the recent layer is
bounded by recent_max outright, and the important layer stays bounded by
important_max whenever it was before the call. -/
lemma add_step {st st2 : Store} {k : String} {d : Payload} {t : ℚ}
    (h : add st k d t = some st2)
    (hr : 0 ≤ st.recent_max) (hm : 0 ≤ st.important_max)
    (hpre : (st.important.length : Int) ≤ st.important_max) :
    st2.recent_max = st.recent_max ∧ st2.important_max = st.important_max ∧
      st2.importance_threshold = st.importance_threshold ∧
      (st2.recent.length : Int) ≤ st.recent_max ∧
      (st2.important.length : Int) ≤ st.important_max := by
  unfold add at h
  cases hs : score_importance k d with
  | none =>
    rw [hs] at h
    exact absurd h (by simp)
  | some s =>
    rw [hs] at h
    simp at h
    have hcore_rec : ((addCore st k d t s).recent.length : Int) ≤ st.recent_max :=
      length_dequeAppend hr _ _
    have hcore_imp : ((addCore st k d t s).important.length : Int) ≤ st.important_max := by
      unfold addCore
      simp
      split
      · exact length_trim hm _
      · exact hpre
    have e1 : (addCore st k d t s).recent_max = st.recent_max := rfl
    have e2 : (addCore st k d t s).important_max = st.important_max := rfl
    have e3 : (addCore st k d t s).importance_threshold = st.importance_threshold := rfl
    split at h
    · have hp := decay_preserves h
      refine ⟨hp.1.trans e1, hp.2.1.trans e2, hp.2.2.1.trans e3, ?_, ?_⟩
      · rw [hp.2.2.2.1]
        exact hcore_rec
      · have hlen : (st2.important.length : Int) ≤
            ((addCore st k d t s).important.length : Int) := by
          exact_mod_cast hp.2.2.2.2.2
        exact hlen.trans hcore_imp
    · simp at h
      subst h
      exact ⟨rfl, rfl, rfl, hcore_rec, hcore_imp⟩

/-! ## Claim C4 — scoring comparison on the two spec inputs -/

/-- C4 counterexample: the claim asserts that the bare "ok" chat does not
exceed the 0.4 promotion threshold, but the code gives every chat event
the 0.9 base score, so score("chat", "ok") = 0.9 > 0.4. -/
theorem c4_counterexample :
    score_importance "chat" [("who", Val.str "user"), ("text", Val.str "ok")] =
      some (9/10) ∧ (2/5 : ℚ) < 9/10 := by
  exact ⟨score_chat_plain "user" "ok" (by decide) (by decide) (by decide) (by decide),
    by norm_num⟩

/-- C4 amended: score("chat", "remember my favorite color is blue?") = 1
strictly exceeds score("chat", "ok") = 0.9, and both exceed the 0.4
promotion threshold (the bare "ok" is not below it). -/
theorem c4_amended :
    score_importance "chat"
        [("who", Val.str "user"),
         ("text", Val.str "remember my favorite color is blue?")] = some 1 ∧
    score_importance "chat" [("who", Val.str "user"), ("text", Val.str "ok")] =
      some (9/10) ∧
    (9/10 : ℚ) < 1 ∧ (2/5 : ℚ) < 1 ∧ (2/5 : ℚ) < 9/10 := by
  refine ⟨?_, score_chat_plain "user" "ok" (by decide) (by decide) (by decide) (by decide),
    by norm_num, by norm_num, by norm_num⟩
  have h1 : hasEmphatic (lowerStr "remember my favorite color is blue?") = true := by
    decide
  have h2 : hasCapWord (lowerStr "remember my favorite color is blue?") = false := by
    decide
  have h3 : hasDigit (lowerStr "remember my favorite color is blue?") = false := by
    decide
  have h4 : '?' ∈ (lowerStr "remember my favorite color is blue?").data := by decide
  simp [score_importance, getStrD, pget, asStr, h1, h2, h3, h4, typeScores, pyMin]
  norm_num

/-! ## Claim C5 — the capitalisation boost is dead code -/

/-- C5: the source lowercases the chat text before the capitalised-word
check ("Check for names (usually capitalized)"), so the +0.15 boost can
never fire: "Alice says hi" (a capitalised word of length > 2) scores
exactly the same 0.9 as its fully lowercased form, not 0.15 more. -/
theorem c5_code_evaluation :
    score_importance "chat" [("who", Val.str "user"), ("text", Val.str "Alice says hi")] =
      some (9/10) ∧
    score_importance "chat" [("who", Val.str "user"), ("text", Val.str "alice says hi")] =
      some (9/10) := by
  constructor
  · exact score_chat_plain "user" "Alice says hi" (by decide) (by decide) (by decide)
      (by decide)
  · exact score_chat_plain "user" "alice says hi" (by decide) (by decide) (by decide)
      (by decide)

/-! ## Claim C9 — construction-time validation -/

/-- C9 counterexample: constructing with recent_max = 0 and
important_max = -1 (both non-positive) succeeds, so construction does
not fail fast on non-positive capacities. -/
theorem c9_counterexample : (mk 0 (-1) (2/5)).isSome = true := by
  decide

/-- C9 amended: construction raises exactly when recent_max is negative
(the deque rejects a negative maxlen); recent_max = 0 and arbitrary
(including non-positive) important_max are accepted silently, and
construction with positive capacities always succeeds. -/
theorem c9_amended (r m : Int) (θ : ℚ) : (mk r m θ).isSome ↔ 0 ≤ r := by
  unfold mk
  split
  · simp
    omega
  · simp
    omega

/-! ## Claim C10 — chat events always clear the promotion threshold -/

/-- A freshly constructed store with the default configuration
(recent_max = 20, important_max = 100, threshold = 0.4). -/
def st0 : Store :=
  { recent_max := 20
    important_max := 100
    importance_threshold := 2/5
    recent := []
    important := []
    archive := []
    event_counter := 0 }

/-- C10: whenever a "chat" event scores at all, its score is at least
the 0.9 chat base; consequently, under the default 0.4 threshold, every
add_chat payload (any text, any who) scores strictly above the
threshold, so add takes the promoted branch and the scored record is
appended to the important layer before capacity trimming. -/
theorem c10_chat_always_promoted :
    (∀ (data : Payload) (s : ℚ), score_importance "chat" data = some s → 9/10 ≤ s) ∧
    (∀ (st : Store) (text who : String) (now : ℚ),
      st.importance_threshold = 2/5 →
      ∃ s, score_importance "chat" [("who", Val.str who), ("text", Val.str text)] = some s ∧
        st.importance_threshold < s ∧
        mkScored "chat" [("who", Val.str who), ("text", Val.str text)] now s ∈
          st.important ++ [mkScored "chat" [("who", Val.str who), ("text", Val.str text)] now s]) := by
  constructor
  · exact fun data s h => score_chat_ge h
  · intro st text who now hθ
    refine ⟨_, score_chat_str who text, ?_, List.mem_append_right _ (List.mem_singleton.2 rfl)⟩
    have h9 : (9/10 : ℚ) ≤ _ := score_chat_ge (score_chat_str who text)
    rw [hθ]
    calc (2/5 : ℚ) < 9/10 := by norm_num
    _ ≤ _ := h9

/-- C10 witness: at the concrete chat text "ok" the score is exactly
0.9 ≥ 0.9, and on the default store the promoted branch applies. -/
theorem c10_witness :
    (score_importance "chat" [("who", Val.str "u"), ("text", Val.str "ok")] = some (9/10) ∧
      (9/10 : ℚ) ≤ 9/10) ∧
    (st0.importance_threshold = 2/5 ∧
      ∃ s, score_importance "chat" [("who", Val.str "u"), ("text", Val.str "ok")] = some s ∧
        st0.importance_threshold < s ∧
        mkScored "chat" [("who", Val.str "u"), ("text", Val.str "ok")] 0 s ∈
          st0.important ++ [mkScored "chat" [("who", Val.str "u"), ("text", Val.str "ok")] 0 s]) := by
  have hs := score_chat_plain "u" "ok" (by decide) (by decide) (by decide) (by decide)
  exact ⟨⟨hs, c10_chat_always_promoted.1 _ _ hs⟩,
    ⟨rfl, c10_chat_always_promoted.2 st0 "ok" "u" 0 rfl⟩⟩

/-! ## Claim C1 — bounded layers -/

/-- The replay invariant: a successful sequence of add calls preserves
the configuration and keeps both layers within their capacities. -/
lemma replay_inv :
    ∀ (calls : List (String × Payload × ℚ)) (st st' : Store),
      replay calls st = some st' →
      0 ≤ st.recent_max → 0 ≤ st.important_max →
      (st.recent.length : Int) ≤ st.recent_max →
      (st.important.length : Int) ≤ st.important_max →
      st'.recent_max = st.recent_max ∧ st'.important_max = st.important_max ∧
        (st'.recent.length : Int) ≤ st.recent_max ∧
        (st'.important.length : Int) ≤ st.important_max := by
  intro calls
  induction calls with
  | nil =>
    intro st st' h _ _ h3 h4
    simp [replay] at h
    subst h
    exact ⟨rfl, rfl, h3, h4⟩
  | cons c rest ih =>
    intro st st' h hr hm h3 h4
    rw [replay] at h
    cases ha : add st c.1 c.2.1 c.2.2 with
    | none =>
      rw [ha] at h
      exact absurd h (by simp)
    | some stm =>
      rw [ha] at h
      obtain ⟨e1, e2, -, hrec, himp⟩ := add_step ha hr hm h4
      have hr2 : 0 ≤ stm.recent_max := by rw [e1]; exact hr
      have hm2 : 0 ≤ stm.important_max := by rw [e2]; exact hm
      have hrec2 : (stm.recent.length : Int) ≤ stm.recent_max := by rw [e1]; exact hrec
      have himp2 : (stm.important.length : Int) ≤ stm.important_max := by rw [e2]; exact himp
      obtain ⟨f1, f2, g3, g4⟩ := ih stm st' h hr2 hm2 hrec2 himp2
      rw [e1] at g3
      rw [e2] at g4
      exact ⟨f1.trans e1, f2.trans e2, g3, g4⟩

/-- C1: after every prefix of any sequence of add calls on a freshly
constructed store with capacities N = recent_max and M = important_max
(capacities are non-negative: a negative recent_max cannot be
constructed, and a capacity is taken to be a non-negative count), the
recent layer holds at most N events and the important layer at most M
entries.  Every intermediate state is the replay of a prefix, so
quantifying over all call lists covers "after each add call". -/
theorem c1_bounded_layers (n m : Int) (θ : ℚ) (stInit st : Store)
    (calls : List (String × Payload × ℚ))
    (hmk : mk n m θ = some stInit) (hm : 0 ≤ m)
    (hrep : replay calls stInit = some st) :
    (st.recent.length : Int) ≤ n ∧ (st.important.length : Int) ≤ m := by
  unfold mk at hmk
  split at hmk
  · exact absurd hmk (by simp)
  case isFalse hneg =>
    simp at hmk
    have hn : 0 ≤ n := by omega
    subst hmk
    obtain ⟨-, -, g3, g4⟩ :=
      replay_inv calls _ st hrep (by simpa using hn) (by simpa using hm)
        (by simpa using hn) (by simpa using hm)
    exact ⟨by simpa using g3, by simpa using g4⟩

/-- C1 witness: the default construction plus the empty call sequence. -/
theorem c1_witness :
    mk 20 100 (2/5) = some st0 ∧ (0 : Int) ≤ 100 ∧ replay [] st0 = some st0 ∧
      (st0.recent.length : Int) ≤ 20 ∧ (st0.important.length : Int) ≤ 100 := by
  have h1 : mk 20 100 (2/5) = some st0 := by
    unfold mk st0
    norm_num
  have h2 := c1_bounded_layers 20 100 (2/5) st0 st0 [] h1 (by norm_num) rfl
  exact ⟨h1, by norm_num, rfl, h2.1, h2.2⟩

/-! ## Claim C2 — decay monotonicity -/

/-- The trajectory of one important-layer entry through successive
sweep calls (none: the entry was dropped or archived at some sweep). -/
noncomputable def sweepsAt : List ℚ → ScoredEvent → Option ScoredEvent
  | [], e => some e
  | t :: ts, e =>
    match sweepEntry t e with
    | some e2 => sweepsAt ts e2
    | Option.none => Option.none

lemma sweepEntry_some {now : ℚ} {e e2 : ScoredEvent}
    (h : sweepEntry now e = some e2) :
    e2.type = e.type ∧ e2.data = e.data ∧ e2.timestamp = e.timestamp ∧
      e2.importance = decayedScore e.importance (now - e.timestamp) ∧
      (1/10 : ℝ) < e2.importance := by
  unfold sweepEntry at h
  split at h
  case isTrue hc =>
    simp at h
    subst h
    exact ⟨rfl, rfl, rfl, rfl, hc⟩
  case isFalse => exact absurd h (by simp)

lemma decay_factor_pos (x : ℚ) : 0 < ((1/2 : ℝ)) ^ ((x : ℝ) / 3600) :=
  Real.rpow_pos_of_pos (by norm_num) _

lemma decay_factor_le_one {x : ℚ} (hx : 0 ≤ x) :
    ((1/2 : ℝ)) ^ ((x : ℝ) / 3600) ≤ 1 := by
  apply Real.rpow_le_one (by norm_num) (by norm_num)
  have : (0 : ℝ) ≤ (x : ℝ) := by exact_mod_cast hx
  positivity

lemma decay_factor_le_half {x : ℚ} (hx : 3600 ≤ x) :
    ((1/2 : ℝ)) ^ ((x : ℝ) / 3600) ≤ 1/2 := by
  have h1 : (1 : ℝ) ≤ (x : ℝ) / 3600 := by
    rw [le_div_iff₀ (by norm_num : (0:ℝ) < 3600)]
    simpa using (by exact_mod_cast hx : (3600 : ℝ) ≤ (x : ℝ))
  calc ((1/2 : ℝ)) ^ ((x : ℝ) / 3600) ≤ (1/2 : ℝ) ^ (1 : ℝ) :=
        Real.rpow_le_rpow_of_exponent_ge (by norm_num) (by norm_num) h1
  _ = 1/2 := Real.rpow_one _

/-- A surviving entry had strictly positive importance before the
sweep. -/
lemma sweepEntry_pos {now : ℚ} {e e2 : ScoredEvent}
    (h : sweepEntry now e = some e2) : 0 < e.importance := by
  obtain ⟨-, -, -, hd, hgt⟩ := sweepEntry_some h
  by_contra hle
  push_neg at hle
  have hf := decay_factor_pos (now - e.timestamp)
  have : e2.importance ≤ 0 := by
    rw [hd]
    unfold decayedScore
    exact mul_nonpos_of_nonpos_of_nonneg hle (le_of_lt hf)
  linarith

/-- Kept entries of the sweep loop reach the output list. -/
lemma sweepGo_mem (now : ℚ) :
    ∀ (l kept : List ScoredEvent) (a : Archive) (k2 : List ScoredEvent) (a2 : Archive),
      sweepGo now l kept a = some (k2, a2) →
      (∀ x ∈ kept, x ∈ k2) ∧
        (∀ e ∈ l, ∀ e2, sweepEntry now e = some e2 → e2 ∈ k2) := by
  intro l
  induction l with
  | nil =>
    intro kept a k2 a2 h
    simp [sweepGo] at h
    refine ⟨fun x hx => ?_, fun e he => absurd he (List.not_mem_nil e)⟩
    rw [h.1.symm]
    exact hx
  | cons e rest ih =>
    intro kept a k2 a2 h
    rw [sweepGo] at h
    cases hse : sweepEntry now e with
    | some e1 =>
      rw [hse] at h
      obtain ⟨hkept, hrest⟩ := ih (kept ++ [e1]) a k2 a2 h
      refine ⟨fun x hx => hkept x (List.mem_append_left _ hx), ?_⟩
      intro e' he' e2 he2
      rcases List.mem_cons.1 he' with rfl | htail
      · rw [hse] at he2
        simp at he2
        subst he2
        exact hkept e1 (List.mem_append_right _ (List.mem_singleton.2 rfl))
      · exact hrest e' htail e2 he2
    | none =>
      rw [hse] at h
      simp at h
      split at h
      · cases hae : archive_event a e with
        | some a3 =>
          rw [hae] at h
          obtain ⟨hkept, hrest⟩ := ih kept a3 k2 a2 h
          refine ⟨hkept, ?_⟩
          intro e' he' e2 he2
          rcases List.mem_cons.1 he' with rfl | htail
          · rw [hse] at he2
            exact absurd he2 (by simp)
          · exact hrest e' htail e2 he2
        | none =>
          rw [hae] at h
          exact absurd h (by simp)
      · obtain ⟨hkept, hrest⟩ := ih kept a k2 a2 h
        refine ⟨hkept, ?_⟩
        intro e' he' e2 he2
        rcases List.mem_cons.1 he' with rfl | htail
        · rw [hse] at he2
          exact absurd he2 (by simp)
        · exact hrest e' htail e2 he2

/-- Monotone decay along a trajectory of sweeps at times not before the
entry's timestamp; one sweep at age at least 3600 seconds halves the
importance relative to its value at age 0. -/
lemma sweepsAt_mono :
    ∀ (times : List ℚ) (e e2 : ScoredEvent),
      sweepsAt times e = some e2 → (∀ t ∈ times, e.timestamp ≤ t) →
      e2.timestamp = e.timestamp ∧ e2.importance ≤ e.importance ∧
        ((∃ t ∈ times, e.timestamp + 3600 ≤ t) → e2.importance ≤ e.importance / 2) := by
  intro times
  induction times with
  | nil =>
    intro e e2 h _
    simp [sweepsAt] at h
    subst h
    exact ⟨rfl, le_refl _, fun hex => by simp at hex⟩
  | cons t ts ih =>
    intro e e2 h htimes
    rw [sweepsAt] at h
    cases hse : sweepEntry t e with
    | none =>
      rw [hse] at h
      exact absurd h (by simp)
    | some e1 =>
      rw [hse] at h
      have hipos := sweepEntry_pos hse
      obtain ⟨-, -, hts1, himp1, -⟩ := sweepEntry_some hse
      have hage : (0 : ℚ) ≤ t - e.timestamp := by
        have := htimes t (List.mem_cons_self t ts)
        linarith
      have hmono1 : e1.importance ≤ e.importance := by
        rw [himp1]
        unfold decayedScore
        exact mul_le_of_le_one_right (le_of_lt hipos) (decay_factor_le_one hage)
      obtain ⟨hts2, hmono2, hhalf2⟩ := ih e1 e2 h (by
        intro t' ht'
        rw [hts1]
        exact htimes t' (List.mem_cons_of_mem t ht'))
      refine ⟨hts2.trans hts1, hmono2.trans hmono1, ?_⟩
      rintro ⟨t', ht'mem, ht'age⟩
      rcases List.mem_cons.1 ht'mem with rfl | htail
      · have hhalf1 : e1.importance ≤ e.importance / 2 := by
          rw [himp1]
          unfold decayedScore
          have hfac : ((1/2 : ℝ)) ^ (((t' - e.timestamp : ℚ) : ℝ) / 3600) ≤ 1/2 :=
            decay_factor_le_half (by linarith)
          calc e.importance * ((1/2 : ℝ)) ^ (((t' - e.timestamp : ℚ) : ℝ) / 3600) ≤
                e.importance * (1/2) :=
              mul_le_mul_of_nonneg_left hfac (le_of_lt hipos)
          _ = e.importance / 2 := by ring
        linarith
      · have := hhalf2 ⟨t', htail, by rw [hts1]; linarith⟩
        linarith

/-- C2: the decayed score is computed as importance * 0.5 ^ (age/3600);
an entry kept by the store-level sweep lands in the new important layer
with its importance updated in place; and along successive sweeps at
times not before the entry's timestamp the importance never increases,
while any sweep at age at least 3600 seconds leaves it at most half the
importance the entry had at age 0. -/
theorem c2_decay_monotonicity :
    (∀ (i : ℝ) (a : ℚ), decayedScore i a = i * (1/2 : ℝ) ^ ((a : ℝ) / 3600)) ∧
    (∀ (now : ℚ) (st st2 : Store) (e e2 : ScoredEvent),
      decay_and_archive now st = some st2 → e ∈ st.important →
      sweepEntry now e = some e2 → e2 ∈ st2.important) ∧
    (∀ (e : ScoredEvent) (times : List ℚ) (e2 : ScoredEvent),
      (∀ t ∈ times, e.timestamp ≤ t) → sweepsAt times e = some e2 →
      e2.importance ≤ e.importance ∧
        ((∃ t ∈ times, e.timestamp + 3600 ≤ t) → e2.importance ≤ e.importance / 2)) := by
  refine ⟨fun i a => rfl, ?_, ?_⟩
  · intro now st st2 e e2 hda he hse
    unfold decay_and_archive at hda
    cases hg : sweepGo now st.important [] st.archive with
    | none =>
      rw [hg] at hda
      exact absurd hda (by simp)
    | some p =>
      rw [hg] at hda
      simp at hda
      have hm := (sweepGo_mem now st.important [] st.archive p.1 p.2 (by rw [hg])).2
        e he e2 hse
      rw [hda.symm]
      exact hm
  · intro e times e2 htimes h
    obtain ⟨-, hmono, hhalf⟩ := sweepsAt_mono times e e2 h htimes
    exact ⟨hmono, hhalf⟩

/-- The concrete entry and its decayed form used by the C2 witness. -/
noncomputable def e0c2 : ScoredEvent :=
  { type := "chat", data := [], timestamp := 0, importance := 1 }

noncomputable def e1c2 : ScoredEvent :=
  { type := "chat", data := [], timestamp := 0, importance := 1/2 }

/-- C2 witness: one sweep at t = 3600 on an entry of importance 1 and
timestamp 0 keeps it with importance exactly 1/2, which is at most the
old importance and at most half the age-0 importance. -/
theorem c2_witness :
    decayedScore 1 (3600 - 0) = 1 * (1/2 : ℝ) ^ (((3600 - 0 : ℚ) : ℝ) / 3600) ∧
    sweepsAt [(3600 : ℚ)] e0c2 = some e1c2 ∧
    (∀ t ∈ [(3600 : ℚ)], e0c2.timestamp ≤ t) ∧
    e1c2.importance ≤ e0c2.importance ∧
    (∃ t ∈ [(3600 : ℚ)], e0c2.timestamp + 3600 ≤ t) ∧
    e1c2.importance ≤ e0c2.importance / 2 := by
  have hd : decayedScore (1 : ℝ) ((3600 : ℚ) - 0) = 1/2 := by
    unfold decayedScore
    rw [show (((3600 : ℚ) - 0 : ℚ) : ℝ) / 3600 = 1 by push_cast; norm_num]
    rw [Real.rpow_one]
    ring
  have hse : sweepEntry 3600 e0c2 = some e1c2 := by
    unfold sweepEntry e0c2 e1c2
    simp only []
    rw [show decayedScore (1 : ℝ) ((3600 : ℚ) - 0) = 1/2 from hd]
    rw [if_pos (by norm_num : (1/10 : ℝ) < 1/2)]
  have htraj : sweepsAt [(3600 : ℚ)] e0c2 = some e1c2 := by
    rw [sweepsAt, hse]
    rfl
  have hc := (c2_decay_monotonicity.2.2 e0c2 [(3600 : ℚ)] e1c2
    (by intro t ht; simp at ht; subst ht; unfold e0c2; norm_num) htraj)
  refine ⟨c2_decay_monotonicity.1 1 (3600 - 0), htraj,
    by intro t ht; simp at ht; subst ht; unfold e0c2; norm_num,
    hc.1, ⟨3600, List.mem_singleton.2 rfl, by unfold e0c2; norm_num⟩,
    hc.2 ⟨3600, List.mem_singleton.2 rfl, by unfold e0c2; norm_num⟩⟩

/-! ## Claim C3 — the promotion threshold -/

lemma scoredEvent_eq_of_fields {a b : ScoredEvent} (h1 : a.type = b.type)
    (h2 : a.data = b.data) (h3 : a.timestamp = b.timestamp)
    (h4 : a.importance = b.importance) : a = b := by
  cases a
  cases b
  simp_all

/-- At age 0 the decay factor is 0.5 ^ 0 = 1. -/
lemma decayedScore_age_zero (i : ℝ) : decayedScore i 0 = i := by
  unfold decayedScore
  rw [show ((0 : ℚ) : ℝ) / 3600 = 0 by norm_num, Real.rpow_zero, mul_one]

/-- Every entry of the sweep's output either was in the accumulator or
is the swept image of an input entry. -/
lemma sweepGo_provenance (now : ℚ) :
    ∀ (l kept : List ScoredEvent) (a : Archive) (k2 : List ScoredEvent) (a2 : Archive),
      sweepGo now l kept a = some (k2, a2) →
      ∀ x ∈ k2, x ∈ kept ∨ ∃ e ∈ l, sweepEntry now e = some x := by
  intro l
  induction l with
  | nil =>
    intro kept a k2 a2 h x hx
    simp [sweepGo] at h
    refine Or.inl ?_
    rw [h.1]
    exact hx
  | cons e rest ih =>
    intro kept a k2 a2 h x hx
    rw [sweepGo] at h
    cases hse : sweepEntry now e with
    | some e1 =>
      rw [hse] at h
      rcases ih (kept ++ [e1]) a k2 a2 h x hx with hk | ⟨e', he', hx'⟩
      · rcases List.mem_append.1 hk with hk1 | hk2
        · exact Or.inl hk1
        · refine Or.inr ⟨e, List.mem_cons_self e rest, ?_⟩
          rw [hse, List.mem_singleton.1 hk2]
      · exact Or.inr ⟨e', List.mem_cons_of_mem e he', hx'⟩
    | none =>
      rw [hse] at h
      simp at h
      split at h
      · cases hae : archive_event a e with
        | some a3 =>
          rw [hae] at h
          rcases ih kept a3 k2 a2 h x hx with hk | ⟨e', he', hx'⟩
          · exact Or.inl hk
          · exact Or.inr ⟨e', List.mem_cons_of_mem e he', hx'⟩
        | none =>
          rw [hae] at h
          exact absurd h (by simp)
      · rcases ih kept a k2 a2 h x hx with hk | ⟨e', he', hx'⟩
        · exact Or.inl hk
        · exact Or.inr ⟨e', List.mem_cons_of_mem e he', hx'⟩

/-- C3 amended: with the default threshold 0.4, an event scoring at or
below 0.4 is never present in the important layer right after its own
add call (provided the identical scored record was not already there);
an event scoring strictly above 0.4 is present right after its own add
call provided the important layer was strictly below its capacity
before the call — at full capacity the freshly promoted event can be
evicted again by the trim in the very same call. -/
theorem c3_promotion_amended (st st2 : Store) (kind : String) (data : Payload)
    (now : ℚ) (s : ℚ)
    (hθ : st.importance_threshold = 2/5)
    (hs : score_importance kind data = some s)
    (hadd : add st kind data now = some st2)
    (hfresh : mkScored kind data now s ∉ st.important) :
    (s ≤ 2/5 → mkScored kind data now s ∉ st2.important) ∧
    (2/5 < s → (st.important.length : Int) < st.important_max →
      mkScored kind data now s ∈ st2.important) := by
  unfold add at hadd
  rw [hs] at hadd
  simp at hadd
  constructor
  · -- at or below the threshold: not promoted, and the sweep cannot
    -- produce the fresh record either
    intro hle
    have himp : (addCore st kind data now s).important = st.important := by
      unfold addCore
      simp
      intro hlt
      rw [hθ] at hlt
      exact absurd hlt (not_lt.2 hle)
    split at hadd
    · unfold decay_and_archive at hadd
      cases hg : sweepGo now (addCore st kind data now s).important []
          (addCore st kind data now s).archive with
      | none =>
        rw [hg] at hadd
        exact absurd hadd (by simp)
      | some p =>
        rw [hg] at hadd
        simp at hadd
        intro hmem
        rw [hadd.symm] at hmem
        simp at hmem
        rcases sweepGo_provenance now _ _ _ _ _ hg _ hmem with hk | ⟨e', he', hx'⟩
        · simp at hk
        · rw [himp] at he'
          obtain ⟨h1, h2, h3, h4, -⟩ := sweepEntry_some hx'
          have hts : e'.timestamp = now := h3.symm
          have himp' : e'.importance = (mkScored kind data now s).importance := by
            have hd : decayedScore e'.importance (now - e'.timestamp) =
                (mkScored kind data now s).importance := h4.symm
            rw [hts, sub_self, decayedScore_age_zero] at hd
            exact hd
          have : e' = mkScored kind data now s :=
            scoredEvent_eq_of_fields h1.symm h2.symm h3.symm himp'
          rw [this] at he'
          exact hfresh he'
    · simp at hadd
      subst hadd
      rw [himp]
      exact hfresh
  · -- above the threshold with free capacity: appended and no trim,
    -- and a fresh event survives the possible sweep at age 0
    intro hgt hcap
    have himp : (addCore st kind data now s).important =
        st.important ++ [mkScored kind data now s] := by
      unfold addCore
      simp
      rw [if_pos]
      · unfold trim_important
        rw [if_neg]
        simp
        omega
      · rw [hθ]
        exact hgt
    have hmem0 : mkScored kind data now s ∈ (addCore st kind data now s).important := by
      rw [himp]
      exact List.mem_append_right _ (List.mem_singleton.2 rfl)
    split at hadd
    · unfold decay_and_archive at hadd
      cases hg : sweepGo now (addCore st kind data now s).important []
          (addCore st kind data now s).archive with
      | none =>
        rw [hg] at hadd
        exact absurd hadd (by simp)
      | some p =>
        rw [hg] at hadd
        simp at hadd
        have hse : sweepEntry now (mkScored kind data now s) =
            some (mkScored kind data now s) := by
          unfold sweepEntry
          have hts : (mkScored kind data now s).timestamp = now := rfl
          rw [hts, sub_self, decayedScore_age_zero]
          rw [if_pos]
          · rfl
          · show (1/10 : ℝ) < ((s : ℚ) : ℝ)
            have hcast : ((2/5 : ℚ) : ℝ) < ((s : ℚ) : ℝ) := by exact_mod_cast hgt
            have h25 : ((2/5 : ℚ) : ℝ) = (2/5 : ℝ) := by norm_num
            rw [h25] at hcast
            linarith
        have := (sweepGo_mem now _ _ _ _ _ hg).2 _ hmem0 _ hse
        rw [hadd.symm]
        exact this
    · simp at hadd
      subst hadd
      exact hmem0

/-- The location kind has base score 0.5 and no content boosts,
whatever the payload. -/
lemma score_location (data : Payload) :
    score_importance "location" data = some (1/2) := by
  simp [score_importance, typeScores, pyMin]
  norm_num

/-- The 0.9-importance chat entry filling the important layer in the C3
counterexample state. -/
noncomputable def echat3 : ScoredEvent :=
  mkScored "chat" [("who", Val.str "u"), ("text", Val.str "ok")] 0 (9/10)

/-- The 0.5-importance location entry the C3 counterexample promotes. -/
noncomputable def eloc3 : ScoredEvent := mkScored "location" [] 0 (1/2)

/-- A default-configuration store whose important layer is already at
its capacity of 100, every entry scored 0.9 (reachable by one hundred
chat adds). -/
noncomputable def stC3 : Store :=
  { recent_max := 20
    important_max := 100
    importance_threshold := 2/5
    recent := []
    important := List.replicate 100 echat3
    archive := []
    event_counter := 0 }

lemma trim_drops_lowest :
    trim_important 100 (List.replicate 100 echat3 ++ [eloc3]) =
      List.replicate 100 echat3 := by
  have hsort : List.Sorted impGE (List.replicate 100 echat3 ++ [eloc3]) := by
    apply List.pairwise_append.2
    refine ⟨?_, List.pairwise_singleton _ _, ?_⟩
    · rw [List.pairwise_replicate]
      exact Or.inr (le_refl echat3.importance)
    · intro x hx y hy
      rw [List.eq_of_mem_replicate hx, List.mem_singleton.1 hy]
      show eloc3.importance ≤ echat3.importance
      show ((1/2 : ℚ) : ℝ) ≤ ((9/10 : ℚ) : ℝ)
      exact_mod_cast (by norm_num : (1/2 : ℚ) ≤ 9/10)
  unfold trim_important
  rw [if_pos (by simp)]
  rw [List.Sorted.insertionSort_eq hsort]
  unfold pyTake
  rw [if_pos (by norm_num : (0 : Int) ≤ 100)]
  exact List.take_left' (by simp)

/-- C3 counterexample: on a reachable default-configuration prior state
whose important layer is full of 0.9-scored chats, a location event
scores 0.5 > 0.4 yet is absent from the important layer immediately
after its own add call — the same call's capacity trim evicts it as the
lowest-scored entry. -/
theorem c3_counterexample :
    score_importance "location" [] = some (1/2) ∧ (2/5 : ℚ) < 1/2 ∧
    stC3.importance_threshold = 2/5 ∧ stC3.important_max = 100 ∧
    ∃ st2, add stC3 "location" [] 0 = some st2 ∧
      mkScored "location" [] 0 (1/2) ∉ st2.important := by
  refine ⟨(score_location []), by norm_num, rfl, rfl, addCore stC3 "location" [] 0 (1/2),
    ?_, ?_⟩
  · unfold add
    rw [score_location]
    show (if (addCore stC3 "location" [] 0 (1/2)).event_counter % 100 = 0 then
        decay_and_archive 0 (addCore stC3 "location" [] 0 (1/2))
      else some (addCore stC3 "location" [] 0 (1/2))) =
      some (addCore stC3 "location" [] 0 (1/2))
    rw [if_neg]
    exact (by decide : ¬ ((1 : ℕ) % 100 = 0))
  · intro hmem
    have himp : (addCore stC3 "location" [] 0 (1/2)).important =
        List.replicate 100 echat3 := by
      show (if stC3.importance_threshold < 1/2 then
          trim_important stC3.important_max
            (stC3.important ++ [mkScored "location" [] 0 (1/2)])
        else stC3.important) = List.replicate 100 echat3
      rw [if_pos (show stC3.importance_threshold < 1/2 from by norm_num [stC3])]
      exact trim_drops_lowest
    rw [himp] at hmem
    have heq : mkScored "location" [] 0 (1/2) = echat3 := List.eq_of_mem_replicate hmem
    have htype := congrArg ScoredEvent.type heq
    exact absurd htype (by decide)

/-- C3 witness for the amended theorem: on the default empty store the
location event (score 0.5) is present immediately after its add call. -/
theorem c3_witness :
    st0.importance_threshold = 2/5 ∧ score_importance "location" [] = some (1/2) ∧
    mkScored "location" [] 0 (1/2) ∉ st0.important ∧
    ∃ st2, add st0 "location" [] 0 = some st2 ∧
      ((1/2 : ℚ) ≤ 2/5 → mkScored "location" [] 0 (1/2) ∉ st2.important) ∧
      ((2/5 : ℚ) < 1/2 → (st0.important.length : Int) < st0.important_max →
        mkScored "location" [] 0 (1/2) ∈ st2.important) := by
  have hadd : add st0 "location" [] 0 = some (addCore st0 "location" [] 0 (1/2)) := by
    unfold add
    rw [score_location]
    show (if (addCore st0 "location" [] 0 (1/2)).event_counter % 100 = 0 then
        decay_and_archive 0 (addCore st0 "location" [] 0 (1/2))
      else some (addCore st0 "location" [] 0 (1/2))) =
      some (addCore st0 "location" [] 0 (1/2))
    rw [if_neg]
    exact (by decide : ¬ ((1 : ℕ) % 100 = 0))
  have hfresh : mkScored "location" [] 0 (1/2) ∉ st0.important :=
    List.not_mem_nil _
  have hc := c3_promotion_amended st0 (addCore st0 "location" [] 0 (1/2)) "location" [] 0
    (1/2) rfl (score_location []) hadd hfresh
  exact ⟨rfl, (score_location []), hfresh,
    addCore st0 "location" [] 0 (1/2), hadd, hc.1, hc.2⟩

/-! ## Claim C7 — summary line bounds -/

lemma lineCount_empty : lineCount "" = 0 := by decide

/-- Appending one newline-free line plus a newline in front of a string
adds exactly one line. -/
lemma lineCount_append_nl (a r : String) (ha : '\n' ∉ a.data) :
    lineCount (a ++ "\n" ++ r) = 1 + lineCount r := by
  have hd : (a ++ "\n" ++ r).data = a.data ++ '\n' :: r.data := by
    simp [String.data_append]
  unfold lineCount
  rw [hd]
  rw [List.count_append, List.count_cons]
  have hca : a.data.count '\n' = 0 := List.count_eq_zero.2 ha
  rcases hr : r.data with - | ⟨c, rest⟩
  · simp [hca]
  · have hlast : (a.data ++ '\n' :: c :: rest).getLast? = (c :: rest).getLast? := by
      rw [List.getLast?_append]
      simp
      obtain ⟨v, hv⟩ := Option.isSome_iff_exists.1
        (List.getLast?_isSome.2 (by simp : (c :: rest) ≠ []))
      rw [hv]
      rfl
    rw [hlast]
    simp [hca]
    omega

/-- The number of lines of a newline-free joined list is bounded by the
number of items. -/
lemma lineCount_joinNL :
    ∀ (ls : List String), (∀ l ∈ ls, '\n' ∉ l.data) → lineCount (joinNL ls) ≤ ls.length := by
  intro ls
  induction ls with
  | nil =>
    intro _
    simp [joinNL, lineCount_empty]
  | cons a t ih =>
    intro hfree
    cases t with
    | nil =>
      show lineCount (joinNL [a]) ≤ 1
      unfold joinNL lineCount
      have hca : a.data.count '\n' = 0 :=
        List.count_eq_zero.2 (hfree a (List.mem_singleton.2 rfl))
      rw [hca]
      split <;> omega
    | cons b t2 =>
      show lineCount (a ++ "\n" ++ joinNL (b :: t2)) ≤ (a :: b :: t2).length
      rw [lineCount_append_nl a _ (hfree a (List.mem_cons_self a _))]
      have := ih (fun l hl => hfree l (List.mem_cons_of_mem a hl))
      simp
      simp at this
      omega

/-- C7 amended: get_context_summary(max_lines) returns at most
max_lines lines, provided no rendered line itself contains an embedded
newline (a chat text containing a newline character breaks the bound,
since the join then contributes extra lines). -/
theorem c7_summary_bounds_amended (st : Store) (n : ℕ) (ls : List String) (s : String)
    (hls : summaryLines st = some ls)
    (hfree : ∀ l ∈ ls, '\n' ∉ l.data)
    (hout : get_context_summary st n = some s) :
    lineCount s ≤ n := by
  unfold get_context_summary at hout
  rw [hls] at hout
  simp at hout
  subst hout
  calc lineCount (joinNL (ls.take n)) ≤ (ls.take n).length :=
        lineCount_joinNL _ (fun l hl => hfree l (List.mem_of_mem_take hl))
  _ ≤ n := by
    simp

/-- The C7 counterexample store: one recent chat whose text contains an
embedded newline. -/
noncomputable def stC7 : Store :=
  { recent_max := 20
    important_max := 100
    importance_threshold := 2/5
    recent := [{ type := "chat"
                 data := [("who", Val.str "u"), ("text", Val.str "a\nb")]
                 timestamp := 0 }]
    important := []
    archive := []
    event_counter := 1 }

/-- C7 counterexample: with max_lines = 2 the summary of a store whose
one chat text embeds a newline renders as three lines. -/
theorem c7_counterexample :
    get_context_summary stC7 2 = some "=== RECENT (last events) ===\nu: a\nb" ∧
    lineCount "=== RECENT (last events) ===\nu: a\nb" = 3 := by
  exact ⟨rfl, by decide⟩

/-- C7 witness: the empty store renders zero lines for max_lines = 0. -/
theorem c7_witness :
    summaryLines st0 = some [] ∧ get_context_summary st0 0 = some "" ∧
    lineCount "" ≤ 0 := by
  refine ⟨rfl, rfl, ?_⟩
  exact c7_summary_bounds_amended st0 0 [] "" rfl (by simp) rfl

/-! ## Claim C8 — totality of the summary renderer -/

/-- The payload shape each _format_event branch needs in order not to
raise: a present chat text (or vision summary) value must be a string,
and a present location pos value must be indexable at 0, 1 and 2. -/
def EventShaped (t : String) (data : Payload) : Prop :=
  (t = "chat" → (getStrD data "text" "").isSome) ∧
  (t = "vision" → (getStrD data "summary" "").isSome) ∧
  (t = "location" →
    (indexVal ((pget data "pos").getD (Val.list [Val.int 0, Val.int 0, Val.int 0])) 0).isSome ∧
    (indexVal ((pget data "pos").getD (Val.list [Val.int 0, Val.int 0, Val.int 0])) 1).isSome ∧
    (indexVal ((pget data "pos").getD (Val.list [Val.int 0, Val.int 0, Val.int 0])) 2).isSome)

lemma format_event_isSome {t : String} {data : Payload} (h : EventShaped t data) :
    (format_event t data).isSome := by
  unfold format_event
  split_ifs with h1 h2 h3 h4
  · obtain ⟨v, hv⟩ := Option.isSome_iff_exists.1 (h.1 h1)
    rw [hv]
    rfl
  · obtain ⟨v, hv⟩ := Option.isSome_iff_exists.1 (h.2.1 h2)
    rw [hv]
    rfl
  · rfl
  · obtain ⟨hp0, hp1, hp2⟩ := h.2.2 h4
    obtain ⟨v0, hv0⟩ := Option.isSome_iff_exists.1 hp0
    obtain ⟨v1, hv1⟩ := Option.isSome_iff_exists.1 hp1
    obtain ⟨v2, hv2⟩ := Option.isSome_iff_exists.1 hp2
    rw [hv0, hv1, hv2]
    rfl
  · rfl

lemma optionMap_isSome {α β : Type} {f : α → Option β} :
    ∀ {l : List α}, (∀ x ∈ l, (f x).isSome) → (optionMap f l).isSome := by
  intro l
  induction l with
  | nil =>
    intro _
    rfl
  | cons x t ih =>
    intro h
    unfold optionMap
    cases hf : f x with
    | none =>
      have := h x (List.mem_cons_self x t)
      rw [hf] at this
      exact absurd this (by simp)
    | some y =>
      have ht := ih (fun z hz => h z (List.mem_cons_of_mem x hz))
      obtain ⟨ys, hys⟩ := Option.isSome_iff_exists.1 ht
      rw [hys]
      rfl

lemma summaryLines_isSome (st : Store)
    (hrec : ∀ e ∈ st.recent, EventShaped e.type e.data)
    (himp : ∀ e ∈ st.important, EventShaped e.type e.data) :
    (summaryLines st).isSome := by
  unfold summaryLines
  have hr : (if st.recent.isEmpty then some ([] : List String)
      else (optionMap (fun e => format_event e.type e.data) (takeLast 5 st.recent)).map
        (fun ls => "=== RECENT (last events) ===" :: ls)).isSome := by
    split
    · rfl
    · have hin : (optionMap (fun e => format_event e.type e.data)
          (takeLast 5 st.recent)).isSome := by
        apply optionMap_isSome
        intro e he
        exact format_event_isSome (hrec e (List.drop_subset _ _ he))
      obtain ⟨ys, hys⟩ := Option.isSome_iff_exists.1 hin
      rw [hys]
      rfl
  have hi : (if st.important.isEmpty then some ([] : List String)
      else (optionMap (fun e => format_event e.type e.data)
          ((List.insertionSort impGE st.important).take 5)).map
        (fun ls => "" :: "=== IMPORTANT (remembered facts) ===" :: ls)).isSome := by
    split
    · rfl
    · have hin : (optionMap (fun e => format_event e.type e.data)
          ((List.insertionSort impGE st.important).take 5)).isSome := by
        apply optionMap_isSome
        intro e he
        have : e ∈ st.important :=
          (List.mem_insertionSort impGE).1 (List.take_subset _ _ he)
        exact format_event_isSome (himp e this)
      obtain ⟨ys, hys⟩ := Option.isSome_iff_exists.1 hin
      rw [hys]
      rfl
  obtain ⟨r, hr'⟩ := Option.isSome_iff_exists.1 hr
  obtain ⟨i, hi'⟩ := Option.isSome_iff_exists.1 hi
  rw [hr', hi']
  rfl

/-- C8 amended: get_context_summary never raises on any store whose
recent and important events have well-shaped payloads (missing fields
still render as defaults); a present but malformed field — e.g. a pos
list shorter than 3, or a non-string text — makes the renderer raise. -/
theorem c8_summary_total_amended (st : Store) (n : ℕ)
    (hrec : ∀ e ∈ st.recent, EventShaped e.type e.data)
    (himp : ∀ e ∈ st.important, EventShaped e.type e.data) :
    (get_context_summary st n).isSome := by
  unfold get_context_summary
  obtain ⟨ls, hls⟩ := Option.isSome_iff_exists.1 (summaryLines_isSome st hrec himp)
  rw [hls]
  rfl

/-- The reachable C8 counterexample state: one add of a location event
whose pos value is an empty list. -/
noncomputable def stC8 : Store := addCore st0 "location" [("pos", Val.list [])] 0 (1/2)

/-- C8 counterexample: the store state reached by
add("location", {"pos": []}) makes get_context_summary raise (pos[0]
IndexError), rather than rendering a default. -/
theorem c8_counterexample :
    add st0 "location" [("pos", Val.list [])] 0 = some stC8 ∧
    get_context_summary stC8 15 = Option.none := by
  constructor
  · unfold add
    rw [score_location]
    show (if stC8.event_counter % 100 = 0 then decay_and_archive 0 stC8
      else some stC8) = some stC8
    rw [if_neg]
    exact (by decide : ¬ ((1 : ℕ) % 100 = 0))
  · rfl

/-- C8 witness: the empty store always renders. -/
theorem c8_witness :
    (∀ e ∈ st0.recent, EventShaped e.type e.data) ∧
    (∀ e ∈ st0.important, EventShaped e.type e.data) ∧
    (get_context_summary st0 15).isSome := by
  refine ⟨fun e he => absurd he (List.not_mem_nil e),
    fun e he => absurd he (List.not_mem_nil e), ?_⟩
  exact c8_summary_total_amended st0 15 (fun e he => absurd he (List.not_mem_nil e))
    (fun e he => absurd he (List.not_mem_nil e))

/-! ## Claim C6 — archive de-duplication -/

lemma aget_aset_same : ∀ (a : Archive) (k : Int) (b : DayBucket),
    aget (aset a k b) k = some b := by
  intro a
  induction a with
  | nil =>
    intro k b
    simp [aset, aget]
  | cons p rest ih =>
    intro k b
    unfold aset
    by_cases hk : p.1 = k
    · rw [if_pos hk]
      unfold aget
      rw [if_pos hk]
    · rw [if_neg hk]
      unfold aget
      rw [if_neg hk]
      exact ih k b

/-- A nonempty pattern occurs in itself-plus-suffix. -/
lemma isSubChars_append_self (pat x : List Char) :
    isSubChars pat (pat ++ x) = true := by
  cases pat with
  | nil =>
    cases x with
    | nil => rfl
    | cons c rest =>
      show isSubChars [] (c :: rest) = true
      unfold isSubChars
      rfl
  | cons c p =>
    show isSubChars (c :: p) (c :: (p ++ x)) = true
    unfold isSubChars
    have hpre : (c :: p).isPrefixOf (c :: p ++ x) = true :=
      List.isPrefixOf_iff_prefix.2 (List.prefix_append _ _)
    simp at hpre
    simp [hpre]

/-- Scanning for a pattern in pattern-plus-rest finds it at the front
and continues past it (Python str.count counts non-overlapping
occurrences). -/
lemma countSubstr_leading (pat rest : List Char) (hne : pat ≠ []) :
    countSubstr pat (pat ++ rest) = 1 + countSubstr pat rest := by
  cases pat with
  | nil => exact absurd rfl hne
  | cons c p =>
    show countSubstr (c :: p) (c :: (p ++ rest)) = 1 + countSubstr (c :: p) rest
    rw [countSubstr]
    rw [if_neg (by simp)]
    rw [if_pos]
    · have hdrop : List.drop ((c :: p).length - 1) (p ++ rest) = rest := by
        simp
      rw [hdrop]
    · refine List.isPrefixOf_iff_prefix.2 ?_
      exact (List.cons_append c p rest) ▸ List.prefix_append (c :: p) rest

/-- A pattern containing a character absent from the haystack never
occurs. -/
lemma countSubstr_zero {pat : List Char} {ch : Char} (hch : ch ∈ pat) :
    ∀ {hay : List Char}, ch ∉ hay → countSubstr pat hay = 0 := by
  intro hay
  induction hay with
  | nil =>
    intro _
    rw [countSubstr]
  | cons c rest ih =>
    intro hnm
    rw [countSubstr]
    by_cases hp : pat.isEmpty
    · rw [if_pos hp]
    · rw [if_neg hp]
      rw [if_neg]
      · exact ih (fun hr => hnm (List.mem_cons_of_mem c hr))
      · intro hpre
        have hsub : pat <+: (c :: rest) := List.isPrefixOf_iff_prefix.1 hpre
        exact hnm (hsub.subset hch)

/-- The sweep loop step for an entry that decayed below the floor and is
old enough to archive. -/
lemma sweepGo_cons_archived {now : ℚ} {e : ScoredEvent} {rest kept : List ScoredEvent}
    {a a1 : Archive} (hse : sweepEntry now e = Option.none)
    (hage : (86400 : ℚ) < now - e.timestamp)
    (harch : archive_event a e = some a1) :
    sweepGo now (e :: rest) kept a = sweepGo now rest kept a1 := by
  rw [sweepGo, hse]
  show (if (86400 : ℚ) < now - e.timestamp then
      match archive_event a e with
      | some a2 => sweepGo now rest kept a2
      | Option.none => Option.none
    else sweepGo now rest kept a) = sweepGo now rest kept a1
  rw [if_pos hage, harch]

/-- A string whose character list is nonempty is not contained in the
empty summary. -/
lemma containsSub_empty {s : String} (h : s.data ≠ []) : containsSub s "" = false := by
  unfold containsSub
  show s.data.isEmpty = false
  cases hd : s.data with
  | nil => exact absurd hd h
  | cons c r => rfl

lemma chatBucketUpdate_no_dup {b : DayBucket} {line : String}
    (h : containsSub line b.summary = false) :
    chatBucketUpdate b line = { b with summary := b.summary ++ line ++ "; " } := by
  unfold chatBucketUpdate
  rw [h]
  simp

/-- The bucket produced by archiving one chat event into a fresh day. -/
def freshChatBucket (e : ScoredEvent) (txt : String) : DayBucket :=
  { summary := "" ++ (renderVal ((pget e.data "who").getD (Val.str "")) ++ ": " ++
      takeChars 50 txt) ++ "; "
    event_count := 1
    timestamp := e.timestamp
    events := [e] }

/-- The bucket produced by archiving a chat event whose fragment is
already in the bucket's summary. -/
def dupChatBucket (b : DayBucket) (e : ScoredEvent) : DayBucket :=
  { summary := b.summary
    event_count := b.event_count + 1
    timestamp := b.timestamp
    events := b.events ++ [e] }

/-- Archiving a chat event into a fresh day bucket writes the fragment
once. -/
lemma archive_event_chat_fresh {a : Archive} {e : ScoredEvent} {txt : String}
    (ht : e.type = "chat") (htx : getStrD e.data "text" "" = some txt)
    (hfresh : aget a (dateKey e.timestamp) = Option.none) :
    archive_event a e = some (aset a (dateKey e.timestamp) (freshChatBucket e txt)) := by
  unfold archive_event
  rw [if_pos ht, htx]
  have hinit : bucketInit a e =
      { summary := "", event_count := 0, timestamp := e.timestamp, events := [] } := by
    unfold bucketInit
    rw [hfresh]
  have hbase : bucketBase a e =
      { summary := "", event_count := 1, timestamp := e.timestamp, events := [e] } := by
    unfold bucketBase
    rw [hinit]
    rfl
  have hne : (renderVal ((pget e.data "who").getD (Val.str "")) ++ ": " ++
      takeChars 50 txt).data ≠ [] := by
    simp [String.data_append]
  rw [Option.map_some', hbase, chatBucketUpdate_no_dup (containsSub_empty hne)]
  rfl

/-- Archiving a chat event into a bucket whose summary already contains
the fragment appends nothing to the summary. -/
lemma archive_event_chat_dup {a : Archive} {e : ScoredEvent} {txt : String} {b : DayBucket}
    (ht : e.type = "chat") (htx : getStrD e.data "text" "" = some txt)
    (hget : aget a (dateKey e.timestamp) = some b)
    (hdup : containsSub (renderVal ((pget e.data "who").getD (Val.str "")) ++ ": " ++
      takeChars 50 txt) b.summary = true) :
    archive_event a e = some (aset a (dateKey e.timestamp) (dupChatBucket b e)) := by
  unfold archive_event
  rw [if_pos ht, htx]
  have hinit : bucketInit a e = b := by
    unfold bucketInit
    rw [hget]
  have hbase : bucketBase a e =
      { summary := b.summary
        event_count := b.event_count + 1
        timestamp := b.timestamp
        events := b.events ++ [e] } := by
    unfold bucketBase
    rw [hinit]
  rw [Option.map_some', hbase]
  unfold chatBucketUpdate
  rw [if_pos hdup]
  rfl

/-- C6: two chat events with identical who and text, recorded on the
same calendar day, both archived by one sweep (each decayed to the
floor and older than one day), produce a day bucket whose rolling
summary contains the "who: text[:50]" fragment exactly once while its
event_count is 2. -/
theorem c6_archive_dedup (st : Store) (t : ℚ) (e1 e2 : ScoredEvent) (txt : String)
    (himp : st.important = [e1, e2])
    (ht1 : e1.type = "chat") (ht2 : e2.type = "chat")
    (hwho : pget e2.data "who" = pget e1.data "who")
    (htx1 : getStrD e1.data "text" "" = some txt)
    (htx2 : getStrD e2.data "text" "" = some txt)
    (hday : dateKey e2.timestamp = dateKey e1.timestamp)
    (hfreshb : aget st.archive (dateKey e1.timestamp) = Option.none)
    (hk1 : ¬ ((1/10 : ℝ) < decayedScore e1.importance (t - e1.timestamp)))
    (ha1 : (86400 : ℚ) < t - e1.timestamp)
    (hk2 : ¬ ((1/10 : ℝ) < decayedScore e2.importance (t - e2.timestamp)))
    (ha2 : (86400 : ℚ) < t - e2.timestamp) :
    ∃ st2 b, decay_and_archive t st = some st2 ∧
      aget st2.archive (dateKey e1.timestamp) = some b ∧
      b.event_count = 2 ∧
      countSubstr (renderVal ((pget e1.data "who").getD (Val.str "")) ++ ": " ++
        takeChars 50 txt).data b.summary.data = 1 := by
  have hse1 : sweepEntry t e1 = Option.none := by
    unfold sweepEntry
    rw [if_neg hk1]
  have hse2 : sweepEntry t e2 = Option.none := by
    unfold sweepEntry
    rw [if_neg hk2]
  have harch1 := archive_event_chat_fresh ht1 htx1 hfreshb
  have hlinedata : (renderVal ((pget e1.data "who").getD (Val.str "")) ++ ": " ++
      takeChars 50 txt).data =
      (renderVal ((pget e1.data "who").getD (Val.str ""))).data ++
        ([':', ' '] ++ (takeChars 50 txt).data) := by
    simp [String.data_append]
  have hlne : (renderVal ((pget e1.data "who").getD (Val.str "")) ++ ": " ++
      takeChars 50 txt).data ≠ [] := by
    rw [hlinedata]
    simp
  have hlmem : ':' ∈ (renderVal ((pget e1.data "who").getD (Val.str "")) ++ ": " ++
      takeChars 50 txt).data := by
    rw [hlinedata]
    simp
  have hline2 : renderVal ((pget e2.data "who").getD (Val.str "")) =
      renderVal ((pget e1.data "who").getD (Val.str "")) := by
    rw [hwho]
  have hget2 : aget (aset st.archive (dateKey e1.timestamp) (freshChatBucket e1 txt))
      (dateKey e2.timestamp) = some (freshChatBucket e1 txt) := by
    rw [hday]
    exact aget_aset_same _ _ _
  have hdup : containsSub (renderVal ((pget e2.data "who").getD (Val.str "")) ++ ": " ++
      takeChars 50 txt) (freshChatBucket e1 txt).summary = true := by
    rw [hline2]
    show containsSub _ ("" ++ (renderVal ((pget e1.data "who").getD (Val.str "")) ++
      ": " ++ takeChars 50 txt) ++ "; ") = true
    unfold containsSub
    have hd : ("" ++ (renderVal ((pget e1.data "who").getD (Val.str "")) ++ ": " ++
        takeChars 50 txt) ++ "; ").data =
        (renderVal ((pget e1.data "who").getD (Val.str "")) ++ ": " ++
          takeChars 50 txt).data ++ ("; " : String).data := by
      simp [String.data_append]
    rw [hd]
    exact isSubChars_append_self _ _
  have harch2 := archive_event_chat_dup ht2 htx2 hget2 hdup
  unfold decay_and_archive
  rw [himp]
  rw [sweepGo_cons_archived hse1 ha1 harch1]
  rw [sweepGo_cons_archived hse2 ha2 harch2]
  rw [sweepGo]
  rw [Option.map_some']
  refine ⟨_, dupChatBucket (freshChatBucket e1 txt) e2, rfl, ?_, rfl, ?_⟩
  · show aget (aset (aset st.archive (dateKey e1.timestamp) (freshChatBucket e1 txt))
      (dateKey e2.timestamp) (dupChatBucket (freshChatBucket e1 txt) e2))
      (dateKey e1.timestamp) = some (dupChatBucket (freshChatBucket e1 txt) e2)
    rw [hday.symm]
    exact aget_aset_same _ _ _
  · show countSubstr _ ("" ++ (renderVal ((pget e1.data "who").getD (Val.str "")) ++
      ": " ++ takeChars 50 txt) ++ "; ").data = 1
    have hd : ("" ++ (renderVal ((pget e1.data "who").getD (Val.str "")) ++ ": " ++
        takeChars 50 txt) ++ "; ").data =
        (renderVal ((pget e1.data "who").getD (Val.str "")) ++ ": " ++
          takeChars 50 txt).data ++ [';', ' '] := by
      simp [String.data_append]
    rw [hd]
    rw [countSubstr_leading _ _ hlne]
    rw [countSubstr_zero hlmem (by decide)]

/-- The concrete chat entry used by the C6 witness. -/
noncomputable def eW : ScoredEvent :=
  { type := "chat"
    data := [("who", Val.str "u"), ("text", Val.str "hi")]
    timestamp := 0
    importance := ((9/10 : ℚ) : ℝ) }

/-- The C6 witness store: two identical archived-to-be chat entries. -/
noncomputable def stW : Store :=
  { st0 with important := [eW, eW] }

/-- C6 witness: sweeping the two identical day-0 chats at t = 360000
(100 hours) archives both into the day-0 bucket with event_count 2 and
a single "u: hi" fragment. -/
theorem c6_witness :
    stW.important = [eW, eW] ∧ eW.type = "chat" ∧
    getStrD eW.data "text" "" = some "hi" ∧
    (¬ ((1/10 : ℝ) < decayedScore eW.importance ((360000 : ℚ) - eW.timestamp))) ∧
    ((86400 : ℚ) < (360000 : ℚ) - eW.timestamp) ∧
    ∃ st2 b, decay_and_archive 360000 stW = some st2 ∧
      aget st2.archive (dateKey eW.timestamp) = some b ∧
      b.event_count = 2 ∧
      countSubstr (renderVal ((pget eW.data "who").getD (Val.str "")) ++ ": " ++
        takeChars 50 "hi").data b.summary.data = 1 := by
  have hk : ¬ ((1/10 : ℝ) < decayedScore eW.importance ((360000 : ℚ) - eW.timestamp)) := by
    show ¬ ((1/10 : ℝ) < decayedScore ((9/10 : ℚ) : ℝ) ((360000 : ℚ) - 0))
    unfold decayedScore
    rw [show ((((360000 : ℚ) - 0 : ℚ)) : ℝ) / 3600 = ((100 : ℕ) : ℝ) by push_cast; norm_num]
    rw [Real.rpow_natCast]
    push_cast
    norm_num
  have ha : (86400 : ℚ) < (360000 : ℚ) - eW.timestamp := by
    show (86400 : ℚ) < (360000 : ℚ) - 0
    norm_num
  exact ⟨rfl, rfl, rfl, hk, ha,
    c6_archive_dedup stW 360000 eW eW "hi" rfl rfl rfl rfl rfl rfl rfl rfl hk ha hk ha⟩

end TieredMemory
